import Mathlib

/-!
Verification of the escape/tag segmentation-and-reinsertion engine of
py3AnyText2Spreadsheet (`resources/escapeText.py`).

Python strings are modelled as `List Char` (code points).  Python's fallible
operations (`str.partition` with an empty separator, attribute access on an
unassigned attribute, a failed `assert`, indexing out of range, calling a
string method with `None`) are modelled in the `Except PyErr` monad.  The one
floating-point expression in the source (the proportional length share in
`convertTranslatedStringToList`) is modelled exactly over the rationals,
which on the character counts involved coincides with the double-precision
behaviour away from representation-boundary ties; see `partLenShare` below.
-/

set_option maxHeartbeats 1000000
set_option maxRecDepth 1000000

deriving instance DecidableEq for Except

abbrev PyStr := List Char

def pstr (s : String) : PyStr := s.data

/-- Python exceptions that the modelled code can raise. -/
inductive PyErr
  | typeError
  | valueError
  | assertionError
  | attributeError
  | keyError
  | indexError
deriving DecidableEq, Repr

/-- One element of the list built by `convertStringToList`: the Python code
appends plain text as a `str` and an escape/schema chunk as a one-element
`list` holding that `str`; the tag distinguishes the two. -/
inductive Entry
  | plain (s : PyStr)
  | esc (s : PyStr)
deriving DecidableEq, Repr

/-- The text carried by an entry (the `str` itself for a plain entry, the
single list element for an escaped one). -/
def Entry.text : Entry → PyStr
  | .plain s => s
  | .esc s => s

/-- Concatenation, in order, of the text of every entry. -/
def concatTexts (l : List Entry) : PyStr :=
  l.foldr (fun e acc => e.text ++ acc) []

/-- Python `s.find(sub)` as an `Option`: index of the first occurrence of
`sub` in `s`, `none` when absent (Python's `-1`). -/
def strFind (sub s : PyStr) : Option Nat :=
  if sub.isPrefixOf s then some 0
  else
    match s with
    | [] => none
    | _ :: t => (strFind sub t).map (· + 1)

/-- Python `s.find(sub)` with Python's `-1` convention for "not found". -/
def pyFind (sub s : PyStr) : Int :=
  match strFind sub s with
  | some i => (i : Int)
  | none => -1

/-- Python `s.rfind(sub)`: index of the last occurrence, `none` for `-1`. -/
def strRFind (sub s : PyStr) : Option Nat :=
  match s with
  | [] => if sub = [] then some 0 else none
  | _ :: t =>
    match strRFind sub t with
    | some j => some (j + 1)
    | none => if sub.isPrefixOf s then some 0 else none

/-- Counting loop for `strCount`, structurally recursive on a fuel counter
so that it reduces in the kernel; each recursive call shortens the string by
at least one character, so fuel `len s + 1` always suffices and the fuel-0
branch is unreachable. -/
def strCountFuel (sub : PyStr) : Nat → PyStr → Nat
  | 0, _ => 0
  | fuel + 1, s =>
    match strFind sub s with
    | none => 0
    | some i =>
      match s with
      | [] => 1
      | _ :: t =>
        -- continue after the match, i.e. at i + max(len sub, 1) ≥ 1
        -- characters further: dropping that many from the string is
        -- dropping one fewer from its tail
        1 + strCountFuel sub fuel (t.drop (i + max sub.length 1 - 1))

/-- Python `s.count(sub)`: number of non-overlapping occurrences, counted
from the left (an empty `sub` counts `len s + 1` occurrences, as in Python). -/
def strCount (sub s : PyStr) : Nat :=
  strCountFuel sub (s.length + 1) s

/-- Python `s[0:j]` for an arbitrary integer `j` (a negative `j` counts from
the end and the result is clamped, exactly as in Python). -/
def pySliceTo (s : PyStr) (j : Int) : PyStr :=
  if 0 ≤ j then s.take j.toNat else s.take ((s.length : Int) + j).toNat

/-- Python `s[a:b]` for non-negative bounds (empty when `b ≤ a`, clamped at
the end of the string). -/
def pySliceNat (s : PyStr) (a b : Nat) : PyStr :=
  (s.drop a).take (b - a)

/-- Python `s.partition(sep)`: raises `ValueError` on an empty separator,
otherwise returns `(before, sep, after)`, or `(s, '', '')` when `sep` does
not occur. -/
def pyPartition (sep s : PyStr) : Except PyErr (PyStr × PyStr × PyStr) :=
  if sep = [] then .error PyErr.valueError
  else
    match strFind sep s with
    | none => .ok (s, [], [])
    | some i => .ok (s.take i, sep, s.drop (i + sep.length))

/-- Python `l[i]` (raises `IndexError` when out of range). -/
def pyGet {α : Type} (l : List α) (i : Nat) : Except PyErr α :=
  match l.get? i with
  | some x => .ok x
  | none => .error PyErr.indexError

/-- Python `l.insert(i, x)` (an index past the end appends, as in Python). -/
def pyInsertAt {α : Type} (i : Nat) (x : α) (l : List α) : List α :=
  l.take i ++ x :: l.drop i

/-- Python `for entry2 in reversed(repl): l.insert(lc, entry2)` — the block insert
used when splicing escape-sequence splits back into the segment list. -/
def pyInsertManyRev {α : Type} (lc : Nat) (repl l : List α) : List α :=
  repl.reverse.foldl (fun acc x => pyInsertAt lc x acc) l

/-- Python `l.remove(x)`: drop the first element equal to `x`, raising
`ValueError` when `x` is absent. -/
def pyRemoveFirst (l : List Entry) (x : Entry) : Except PyErr (List Entry) :=
  match l with
  | [] => .error PyErr.valueError
  | a :: rest =>
    if a = x then .ok rest
    else (pyRemoveFirst rest x).map (a :: ·)

/-- Index of the first element equal to `x`. -/
def findIdxEntry (x : Entry) (l : List Entry) : Option Nat :=
  match l with
  | [] => none
  | a :: rest =>
    if a = x then some 0 else (findIdxEntry x rest).map (· + 1)

/- ## Module-level configuration (lines 69-121 of escapeText.py) -/

def defaultGoLeftForSplitMode : Bool := false

def defaultSplitDelimiter : PyStr := pstr " "

/-- The default escapeSchema dict, in its insertion order (lines 75-83). -/
def defaultEscapeSchema : List (PyStr × PyStr) :=
  [ (pstr "<", pstr ">")
  , (pstr "＜", pstr "＞")
  , (pstr "[", pstr "]")
  , (pstr "［", pstr "］")
  , (pstr "\x7b", pstr "\x7d")
  , (pstr "｛", pstr "｝") ]

/-- List `pythonEscapeSequences` (lines 89-105); the single-quote and
double-quote characters are written via `Char.ofNat` (39 and 34). -/
def pythonEscapeSequences : List PyStr :=
  [ [Char.ofNat 92, Char.ofNat 92]
  , [Char.ofNat 92, Char.ofNat 39]
  , [Char.ofNat 92, Char.ofNat 34]
  , pstr "\\a", pstr "\\b", pstr "\\f", pstr "\\n", pstr "\\r", pstr "\\t"
  , pstr "\\v", pstr "\\o", pstr "\\x", pstr "\\N", pstr "\\u", pstr "\\U" ]

def assSubtitlesEscapeSequences : List PyStr := []

def srtSubtitlesEscapeSequences : List PyStr := []

def userDefinedEscapeSequences : List PyStr := []

/-- List `alphabetEscapeSequences` (lines 117-121): a backslash in front of each
ASCII lowercase then uppercase letter. -/
def alphabetEscapeSequences : List PyStr :=
  ((pstr "abcdefghijklmnopqrstuvwxyz") ++ (pstr "ABCDEFGHIJKLMNOPQRSTUVWXYZ")).map
    (fun c => [Char.ofNat 92, c])

/- ## Pass 1: bracket-pair extraction (convertStringToList, lines 273-312) -/

/-- Lines 274-277: for every schema pair whose opening **and** closing
delimiters both occur somewhere in the string, add the number of occurrences
of the opening delimiter. -/
def countSchemas (schema : List (PyStr × PyStr)) (s : PyStr) : Nat :=
  schema.foldl
    (fun acc kv =>
      if (strFind kv.1 s).isSome && (strFind kv.2 s).isSome
      then acc + strCount kv.1 s else acc) 0

/-- One step of the inner selection loop (lines 289-295): keep the running
lowest `[index, key]`, replacing it only on a strictly lower index. -/
def selStep (t : PyStr) (cur : Option (Nat × PyStr)) (kv : PyStr × PyStr) :
    Option (Nat × PyStr) :=
  match strFind kv.1 t with
  | none => cur
  | some idx =>
    match cur with
    | none => some (idx, kv.1)
    | some c => if idx < c.1 then some (idx, kv.1) else cur

/-- Lines 288-295: among the schema keys found in the remaining string, the
`[index, key]` the loop settles on (`none` models `[None, None]`). -/
def selectLowestKey (schema : List (PyStr × PyStr)) (t : PyStr) :
    Option (Nat × PyStr) :=
  schema.foldl (selStep t) none

/-- Python dict lookup `self.escapeSchema[key]`. -/
def dictGet (schema : List (PyStr × PyStr)) (key : PyStr) :
    Except PyErr PyStr :=
  match schema.find? (fun kv => kv.1 == key) with
  | some kv => .ok kv.2
  | none => .error PyErr.keyError

/-- The body of one iteration of the Pass-1 loop (lines 287-309).  When the
selection is `[None, None]` the Python code reaches
`tempString.partition(None)` and raises a `TypeError`. -/
def pass1Body (schema : List (PyStr × PyStr)) (backup i : Nat)
    (st : PyStr × List Entry) : Except PyErr (PyStr × List Entry) := do
  match selectLowestKey schema st.1 with
  | none => .error PyErr.typeError
  | some (index, key) => do
    let (tempString, tempList) ←
      if index ≠ 0 then do
        let parts ← pyPartition key st.1
        pure (key ++ parts.2.2, st.2 ++ [Entry.plain parts.1])
      else pure (st.1, st.2)
    let value ← dictGet schema key
    let endIndex := pyFind value tempString
    let tempList := tempList ++ [Entry.esc (pySliceTo tempString (endIndex + 1))]
    let parts ← pyPartition value tempString
    let tempString := parts.2.2
    let tempList :=
      if i + 1 = backup then tempList ++ [Entry.plain tempString] else tempList
    pure (tempString, tempList)

/-- Python `for i in range(...)` over `pass1Body`, with `i` threaded explicitly:
`pass1Loop schema backup i fuel st` runs iterations `i, i+1, …, i+fuel-1`.
(The decrement of `schemaFoundCounter` and the `assert` at line 312 are
omitted: the counter is decremented exactly once per iteration of a loop
that runs `schemaFoundCounter` times, so the assert can never fire.) -/
def pass1Loop (schema : List (PyStr × PyStr)) (backup : Nat) :
    Nat → Nat → PyStr × List Entry → Except PyErr (PyStr × List Entry)
  | _, 0, st => .ok st
  | i, fuel + 1, st => do
    let st' ← pass1Body schema backup i st
    pass1Loop schema backup (i + 1) fuel st'

/- ## Pass 2: escape-sequence extraction (lines 319-390) -/

/-- Lines 332-334: occurrences of escape sequences in one plain entry. -/
def countEscapes (escapes : List PyStr) (t : PyStr) : Nat :=
  escapes.foldl
    (fun acc item =>
      if (strFind item t).isSome then acc + strCount item t else acc) 0

/-- One step of the selection loop at lines 347-352 (same strict-`<`
running minimum as Pass 1, over the escape-sequence list). -/
def escSelStep (t : PyStr) (cur : Option (Nat × PyStr)) (item : PyStr) :
    Option (Nat × PyStr) :=
  match strFind item t with
  | none => cur
  | some idx =>
    match cur with
    | none => some (idx, item)
    | some c => if idx < c.1 then some (idx, item) else cur

def escSelect (escapes : List PyStr) (t : PyStr) : Option (Nat × PyStr) :=
  escapes.foldl (escSelStep t) none

/-- Body of one iteration of the escape-splitting loop (lines 345-368).
With no sequence found the code reaches `tempString.find(None)` at line 356
and raises a `TypeError`. -/
def escBody (escapes : List PyStr) (backup i : Nat)
    (st : PyStr × List Entry) : Except PyErr (PyStr × List Entry) := do
  match escSelect escapes st.1 with
  | none => .error PyErr.typeError
  | some (_, item) => do
    let index := pyFind item st.1
    let (tempString, tempList2) ←
      if index ≠ 0 then do
        let parts ← pyPartition item st.1
        pure (item ++ parts.2.2, st.2 ++ [Entry.plain parts.1])
      else pure (st.1, st.2)
    let endIndex := pyFind item tempString
    let tempList2 := tempList2 ++
      [Entry.esc (pySliceTo tempString (endIndex + (item.length : Int)))]
    let parts ← pyPartition item tempString
    let tempString := parts.2.2
    let tempList2 :=
      if i + 1 = backup then tempList2 ++ [Entry.plain tempString] else tempList2
    pure (tempString, tempList2)

def escLoop (escapes : List PyStr) (backup : Nat) :
    Nat → Nat → PyStr × List Entry → Except PyErr (PyStr × List Entry)
  | _, 0, st => .ok st
  | i, fuel + 1, st => do
    let st' ← escBody escapes backup i st
    escLoop escapes backup (i + 1) fuel st'

/-- Lines 322-372: build `adjustEntryMappings`.  The Python dict maps each
plain entry that contains at least one escape sequence to its split list;
the split depends only on the entry's text, so the insertion-order list with
first-match lookup below models the dict exactly (a repeated entry rewrites
the same value). -/
def buildMappings (escapes : List PyStr) :
    List Entry → Except PyErr (List (PyStr × List Entry))
  | [] => .ok []
  | .esc _ :: rest => buildMappings escapes rest
  | .plain entry :: rest => do
    let counter := countEscapes escapes entry
    if counter = 0 then buildMappings escapes rest
    else do
      let (_, tempList2) ← escLoop escapes counter 0 counter (entry, [])
      let restM ← buildMappings escapes rest
      .ok ((entry, tempList2) :: restM)

def lookupMapping (m : List (PyStr × List Entry)) (s : PyStr) :
    Option (List Entry) :=
  (m.find? (fun kv => kv.1 == s)).map (·.2)

/-- Lines 378-388: iterate over a copy of `tempList` (the first argument),
mutating the real list (in the state): a mapped plain entry is removed
(first occurrence) and its split is inserted at `listCounter`. -/
def spliceLoop (m : List (PyStr × List Entry)) :
    List Entry → Nat × List Entry → Except PyErr (List Entry)
  | [], st => .ok st.2
  | e :: rest, (lc, cur) =>
    match e with
    | .plain s =>
      match lookupMapping m s with
      | some repl => do
        let cur' ← pyRemoveFirst cur (.plain s)
        spliceLoop m rest (lc + repl.length, pyInsertManyRev lc repl cur')
      | none => spliceLoop m rest (lc + 1, cur)
    | .esc _ => spliceLoop m rest (lc + 1, cur)

/-- Method `EscapeText.convertStringToList` (lines 273-390), with the schema dict,
escape-sequence list and subject string passed explicitly. -/
def convertStringToList (schema : List (PyStr × PyStr))
    (escapeSequences : List PyStr) (string : PyStr) :
    Except PyErr (List Entry) := do
  let schemaFoundCounter := countSchemas schema string
  let tempList : List Entry :=
    if schemaFoundCounter = 0 then [Entry.plain string] else []
  let (_, tempList) ←
    pass1Loop schema schemaFoundCounter 0 schemaFoundCounter (string, tempList)
  if escapeSequences.length = 0 then
    return tempList
  else do
    let mappings ← buildMappings escapeSequences tempList
    if mappings.length > 0 then
      spliceLoop mappings tempList (0, tempList)
    else
      return tempList

/- ## The EscapeText object (lines 124-213) -/

/-- The instance attributes of an `EscapeText` object.  `escapeSchema` is
`none` when the attribute was never assigned (possible when the constructor
is given an empty list); `asAListStored` models the `_asAList` attribute
written by the `asAList` setter (unset before the first write). -/
structure EscapeTextState where
  string : PyStr
  goLeftForSplitMode : Bool
  splitDelimiter : PyStr
  escapeSchema : Option (List (PyStr × PyStr))
  escapeSequencesIncludePython : Bool
  escapeSequencesIncludeAss : Bool
  escapeSequencesIncludeSrt : Bool
  escapeSequences : List PyStr
  asAListStored : Option (List Entry)
deriving DecidableEq, Repr

/-- The `escapeSchema` constructor argument: `None`, a list/tuple of
delimiter pairs, or a dict (whose keys are unique by construction). -/
inductive SchemaArg
  | pyNone
  | fromListOrTuple (entries : List (PyStr × PyStr))
  | fromDict (entries : List (PyStr × PyStr))
deriving DecidableEq, Repr

/-- The `escapeSequences` constructor argument. -/
inductive EscSeqArg
  | pyNone
  | fromListOrTuple (entries : List PyStr)
  | fromString (s : PyStr)
deriving DecidableEq, Repr

/-- Constructor `EscapeText.__init__` (lines 125-167).  For a list/tuple schema each
entry is a pair, so `assert(len(entry) == 2)` succeeds and the first
item-assignment `self.escapeSchema[entry[0]] = entry[1]` reads the attribute
`escapeSchema` before it has ever been assigned, raising `AttributeError`;
with an empty list the loop body never runs and the attribute is left unset.
The branches for `'ass'`/`'srt'` do not set their `Include` flags (they do
not in the source either); an unrecognized string only prints a warning. -/
def EscapeText.init (string : PyStr) (escapeSchema : SchemaArg := .pyNone)
    (escapeSequences : EscSeqArg := .pyNone) : Except PyErr EscapeTextState := do
  let schemaField : Option (List (PyStr × PyStr)) ←
    match escapeSchema with
    | .pyNone => pure (some defaultEscapeSchema)
    | .fromListOrTuple entries =>
      match entries with
      | [] => pure none
      | _ :: _ => .error PyErr.attributeError
    | .fromDict entries => pure (some entries)
  let (escSeqs, includePython) :=
    match escapeSequences with
    | .pyNone => (userDefinedEscapeSequences, false)
    | .fromListOrTuple entries => (userDefinedEscapeSequences ++ entries, false)
    | .fromString s =>
      if s = pstr "python" then (pythonEscapeSequences, true)
      else if s = pstr "ass" then (assSubtitlesEscapeSequences, false)
      else if s = pstr "srt" then (srtSubtitlesEscapeSequences, false)
      else if s = pstr "alphabet" then (alphabetEscapeSequences, false)
      else (userDefinedEscapeSequences, false)
  pure
    { string := string
    , goLeftForSplitMode := defaultGoLeftForSplitMode
    , splitDelimiter := defaultSplitDelimiter
    , escapeSchema := schemaField
    , escapeSequencesIncludePython := includePython
    , escapeSequencesIncludeAss := false
    , escapeSequencesIncludeSrt := false
    , escapeSequences := escSeqs
    , asAListStored := none }

/-- Getter `get_asAList` (lines 198-205): recompute the segmentation of the current
string and filter out entries equal to the empty string (only plain `str`
entries can compare equal to `''`).  Reading an unset `escapeSchema`
attribute inside `convertStringToList` raises `AttributeError`. -/
def EscapeTextState.get_asAList (self : EscapeTextState) :
    Except PyErr (List Entry) := do
  match self.escapeSchema with
  | none => .error PyErr.attributeError
  | some schema => do
    let tempList2 ← convertStringToList schema self.escapeSequences self.string
    pure (tempList2.filter (fun entry => entry != Entry.plain []))

/-- Setter `set_asAList` (lines 209-210): store the value in `_asAList` and nothing
else. -/
def EscapeTextState.set_asAList (self : EscapeTextState)
    (value : List Entry) : EscapeTextState :=
  { self with asAListStored := some value }

/-- The `text` property (lines 223-234): concatenation of the plain (str)
entries of `asAList`. -/
def EscapeTextState.text (self : EscapeTextState) : Except PyErr PyStr := do
  let l ← self.get_asAList
  pure (l.foldl
    (fun acc item => match item with | .plain s => acc ++ s | .esc _ => acc) [])

/- ## The proportional remapper (lines 394-521) -/

/-- Method `_adjustIndex` (lines 487-521).  If the character at the approximate
index is already the delimiter, keep it; otherwise search left (`rfind` on
the prefix) or right (`find` on the suffix); a failed search returns the
unsnapped approximate index directly, skipping the final assert.  A
successful search runs `assert(translatedString[i:i+1] == splitDelimiter)`,
whose failure is re-raised (line 519). -/
def adjustIndex (goLeftForSplitMode : Bool) (splitDelimiter : PyStr)
    (approximateIndex : Nat) (translatedString : PyStr) : Except PyErr Nat :=
  let adj : Option Nat :=
    if pySliceNat translatedString approximateIndex (approximateIndex + 1)
        = splitDelimiter then
      some approximateIndex
    else if goLeftForSplitMode then
      strRFind splitDelimiter (translatedString.take approximateIndex)
    else
      (strFind splitDelimiter (translatedString.drop approximateIndex)).map
        (approximateIndex + ·)
  match adj with
  | none => .ok approximateIndex
  | some adjustedIndex =>
    if pySliceNat translatedString adjustedIndex (adjustedIndex + 1)
        = splitDelimiter then .ok adjustedIndex
    else .error PyErr.assertionError

/-- Lines 448-458: `int(len(part)/origLen*transLen)` plus
`int(round(frac, 0))` where `frac` is the fractional part.  The real-valued
expression is modelled exactly: the integer part is `p / origLen` for
`p = len(part) * transLen`, and `round` of the fractional part `p % origLen
/ origLen ∈ [0,1)` is `1` exactly when that fraction exceeds one half
(`round` is half-to-even, so a fraction of exactly one half rounds to 0). -/
def partLenShare (partLen origLen transLen : Nat) : Nat :=
  let p := partLen * transLen
  p / origLen + (if origLen < 2 * (p % origLen) then 1 else 0)

/-- Body of one iteration of the splitting loop (lines 446-481).  The state
is `(previousPartLength, previousPartEndIndex, currentPartEndIndex, parts)`;
`currentPartEndIndex` is carried because the last iteration's
`previousPartEndIndex = currentPartEndIndex` assignment reads the value left
over from the previous iteration.  Inside the `try`, `assert(
currentPartEndIndex != -1 )` can never fail — `_adjustIndex` only returns
non-negative indices — and slicing never raises, so the `except` branch at
lines 469-474 is unreachable and is not modelled. -/
def remapBody (goLeft : Bool) (splitDelimiter translatedString : PyStr)
    (originalStringInAList : List PyStr) (originalStringLength n i : Nat)
    (st : Nat × Nat × Nat × List PyStr) :
    Except PyErr (Nat × Nat × Nat × List PyStr) := do
  let (previousPartLength, previousPartEndIndex, currentPartEndIndex0, acc) := st
  let currentPart := originalStringInAList.getD i []
  let currentPartLengthRaw :=
    partLenShare currentPart.length originalStringLength translatedString.length
  if i + 1 ≠ n then do
    let currentPartEndIndex ← adjustIndex goLeft splitDelimiter
      (previousPartLength + currentPartLengthRaw) translatedString
    let endResult :=
      pySliceNat translatedString previousPartEndIndex currentPartEndIndex
    pure (currentPartLengthRaw, currentPartEndIndex, currentPartEndIndex,
      acc ++ [endResult])
  else
    let endResult := translatedString.drop previousPartEndIndex
    pure (currentPartLengthRaw, currentPartEndIndex0, currentPartEndIndex0,
      acc ++ [endResult])

def remapLoop (goLeft : Bool) (splitDelimiter translatedString : PyStr)
    (originalStringInAList : List PyStr) (originalStringLength n : Nat) :
    Nat → Nat → Nat × Nat × Nat × List PyStr →
    Except PyErr (Nat × Nat × Nat × List PyStr)
  | _, 0, st => .ok st
  | i, fuel + 1, st => do
    let st' ← remapBody goLeft splitDelimiter translatedString
      originalStringInAList originalStringLength n i st
    remapLoop goLeft splitDelimiter translatedString originalStringInAList
      originalStringLength n (i + 1) fuel st'

/-- Lines 425-428: the plain (`str`) entries of a segment list, in order. -/
def plainParts (l : List Entry) : List PyStr :=
  l.filterMap (fun e => match e with | .plain s => some s | .esc _ => none)

/-- Method `convertTranslatedStringToList` (lines 424-484). -/
def EscapeTextState.convertTranslatedStringToList (self : EscapeTextState)
    (translatedString : PyStr) : Except PyErr (List PyStr) := do
  let asAList ← self.get_asAList
  let originalStringInAList := plainParts asAList
  let numberOfPartsToSplit := originalStringInAList.length
  let tempString := originalStringInAList.foldl (· ++ ·) []
  let originalStringLength := tempString.length
  if numberOfPartsToSplit ≤ 1 then
    pure [translatedString]
  else do
    let res ← remapLoop self.goLeftForSplitMode self.splitDelimiter
      translatedString originalStringInAList originalStringLength
      numberOfPartsToSplit 0 numberOfPartsToSplit (0, 0, 0, [])
    pure res.2.2.2

/-- Lines 398-406: walk `asAList`, replacing each plain entry with the next
piece of the split translated string and keeping each escaped entry's text
(`entry[0]`) verbatim. -/
def interleaveLoop (translatedStringAsAList : List PyStr) :
    List Entry → Nat → PyStr → Except PyErr PyStr
  | [], _, acc => pure acc
  | entry :: rest, k, acc =>
    match entry with
    | .plain _ => do
      let piece ← pyGet translatedStringAsAList k
      interleaveLoop translatedStringAsAList rest (k + 1) (acc ++ piece)
    | .esc s => interleaveLoop translatedStringAsAList rest k (acc ++ s)

/-- Method `getTranslatedStringWithEscapesInserted` (lines 394-406). -/
def EscapeTextState.getTranslatedStringWithEscapesInserted
    (self : EscapeTextState) (translatedString : PyStr) :
    Except PyErr PyStr := do
  let translatedStringAsAList ←
    self.convertTranslatedStringToList translatedString
  let asAList ← self.get_asAList
  interleaveLoop translatedStringAsAList asAList 0 []

/- ## Closed forms for the remapper -/

/-- The value `_adjustIndex` returns when it does not raise: the
approximate index itself when it already sits on the delimiter or when the
directional search fails, and the found delimiter position otherwise. -/
def adjustIndexVal (gl : Bool) (d : PyStr) (a : Nat) (t : PyStr) : Nat :=
  if pySliceNat t a (a + 1) = d then a
  else if gl then (strRFind d (t.take a)).getD a
  else
    match strFind d (t.drop a) with
    | none => a
    | some j => a + j

/-- The unsnapped target offset the splitting loop hands to `_adjustIndex`
for part `i`: the proportional share of part `i` plus — because
`previousPartLength` holds only the immediately preceding part's share —
the share of part `i - 1` alone (zero for the first part), not an
accumulated cursor. -/
def unsnappedOffset (lens : List Nat) (origLen transLen i : Nat) : Nat :=
  (if i = 0 then 0 else partLenShare (lens.getD (i - 1) 0) origLen transLen)
    + partLenShare (lens.getD i 0) origLen transLen

/-- The snapped end boundary for part `i`. -/
def specEnd (gl : Bool) (d t : PyStr) (lens : List Nat) (origLen i : Nat) :
    Nat :=
  adjustIndexVal gl d (unsnappedOffset lens origLen t.length i) t

/-- The start boundary for part `i` (the previous part's snapped end). -/
def specStart (gl : Bool) (d t : PyStr) (lens : List Nat) (origLen : Nat) :
    Nat → Nat
  | 0 => 0
  | i + 1 => specEnd gl d t lens origLen i

/-- Closed form of the split produced by the loop of
`convertTranslatedStringToList` for `n ≥ 2` parts: part `i < n - 1` is the
slice between consecutive snapped boundaries and the last part is the
remainder of the translated string from the last snapped boundary on. -/
def specPieces (gl : Bool) (d t : PyStr) (lens : List Nat)
    (origLen n : Nat) : List PyStr :=
  (List.range' 0 n).map (fun i =>
    if i + 1 ≠ n then
      pySliceNat t (specStart gl d t lens origLen i)
        (specEnd gl d t lens origLen i)
    else t.drop (specStart gl d t lens origLen i))

/-- Modelled from the claim's words (claim C6): the offset for part `i` as
"a running cursor accumulated over segments 0..i", each segment
contributing its rounded proportional share. -/
def claimCursorOffset (lens : List Nat) (origLen transLen i : Nat) : Nat :=
  ((List.range' 0 (i + 1)).map
    (fun j => partLenShare (lens.getD j 0) origLen transLen)).sum

/-- Modelled from the claim's words (claim C6): the split that would result
if the loop used the accumulated cursor `claimCursorOffset` as its unsnapped
offset (snapping and slicing as in the code). -/
def claimCursorEnd (gl : Bool) (d t : PyStr) (lens : List Nat)
    (origLen i : Nat) : Nat :=
  adjustIndexVal gl d (claimCursorOffset lens origLen t.length i) t

def claimCursorStart (gl : Bool) (d t : PyStr) (lens : List Nat)
    (origLen : Nat) : Nat → Nat
  | 0 => 0
  | i + 1 => claimCursorEnd gl d t lens origLen i

def claimCursorPieces (gl : Bool) (d t : PyStr) (lens : List Nat)
    (origLen n : Nat) : List PyStr :=
  (List.range' 0 n).map (fun i =>
    if i + 1 ≠ n then
      pySliceNat t (claimCursorStart gl d t lens origLen i)
        (claimCursorEnd gl d t lens origLen i)
    else t.drop (claimCursorStart gl d t lens origLen i))

/- ## Well-formedness checkers for the segmentation -/

/-- One-step safety condition for the Pass-1 extraction loop: the selection
must succeed and the selected key's closing delimiter must occur in the
remainder after the pre-split and be a single character — exactly the
conditions under which the step consumes precisely the text it appends. -/
def pass1StepOk (schema : List (PyStr × PyStr)) (t : PyStr) : Bool :=
  match selectLowestKey schema t with
  | none => false
  | some (index, key) =>
    match schema.find? (fun kv => kv.1 == key) with
    | none => false
    | some kv =>
      let tMid := if index ≠ 0 then key ++ t.drop (index + key.length) else t
      kv.2.length == 1 && (strFind kv.2 tMid).isSome

/-- Every iteration of the Pass-1 loop satisfies `pass1StepOk` and
completes. -/
def pass1Check (schema : List (PyStr × PyStr)) (backup : Nat) :
    Nat → Nat → PyStr × List Entry → Bool
  | _, 0, _ => true
  | i, fuel + 1, st =>
    pass1StepOk schema st.1 &&
    (match pass1Body schema backup i st with
     | .ok st' => pass1Check schema backup (i + 1) fuel st'
     | .error _ => false)

/-- One-step safety condition for the escape-splitting loop: some escape
sequence is still found and it is non-empty. -/
def escStepOk (escapes : List PyStr) (t : PyStr) : Bool :=
  match escSelect escapes t with
  | none => false
  | some (_, item) => item != []

/-- Every iteration of one entry's escape-splitting loop satisfies
`escStepOk` and completes. -/
def escCheck (escapes : List PyStr) (backup : Nat) :
    Nat → Nat → PyStr × List Entry → Bool
  | _, 0, _ => true
  | i, fuel + 1, st =>
    escStepOk escapes st.1 &&
    (match escBody escapes backup i st with
     | .ok st' => escCheck escapes backup (i + 1) fuel st'
     | .error _ => false)

/-- The escape-splitting of every plain entry that contains an escape
sequence completes safely. -/
def mappingsCheck (escapes : List PyStr) : List Entry → Bool
  | [] => true
  | .esc _ :: rest => mappingsCheck escapes rest
  | .plain entry :: rest =>
    (if countEscapes escapes entry = 0 then true
     else escCheck escapes (countEscapes escapes entry) 0
       (countEscapes escapes entry) (entry, []))
    && mappingsCheck escapes rest

/-- Every step of the in-place splice finds the entry it removes exactly at
the running `listCounter` position (so removal and insertion act at the same
place). -/
def spliceCheck (m : List (PyStr × List Entry)) :
    List Entry → Nat × List Entry → Bool
  | [], _ => true
  | e :: rest, (lc, cur) =>
    match e with
    | .plain s =>
      match lookupMapping m s with
      | some repl =>
        (findIdxEntry (.plain s) cur == some lc) &&
        (match pyRemoveFirst cur (.plain s) with
         | .ok curP =>
           spliceCheck m rest (lc + repl.length, pyInsertManyRev lc repl curP)
         | .error _ => false)
      | none => spliceCheck m rest (lc + 1, cur)
    | .esc _ => spliceCheck m rest (lc + 1, cur)

/-- Executable well-formedness of a whole `convertStringToList` run: every
Pass-1 extraction step finds a single-character closing delimiter, every
Pass-2 escape split completes, and the splice replaces entries in place.
Under this condition segmentation returns normally and is a partition of the
input (claim C1); outside it the code can truncate or raise. -/
def segmentationWellFormed (schema : List (PyStr × PyStr))
    (escapes : List PyStr) (s : PyStr) : Bool :=
  let counter := countSchemas schema s
  let initL : List Entry := if counter = 0 then [Entry.plain s] else []
  pass1Check schema counter 0 counter (s, initL) &&
  (match pass1Loop schema counter 0 counter (s, initL) with
   | .error _ => false
   | .ok (_, lst) =>
     if escapes.length = 0 then true
     else
       mappingsCheck escapes lst &&
       (match buildMappings escapes lst with
        | .error _ => false
        | .ok m =>
          if m.length > 0 then spliceCheck m lst (0, lst) else true))

/- ## Concrete fixture objects -/

/-- The object built by `EscapeText.init` on the Elder Tale example line
from the usage block of escapeText.py (default schema, no escape
sequences). -/
def stElderTale : EscapeTextState :=
  { string := pstr "but welcome back to \x7b\\i1\x7dElder Tale\x7b\\i0\x7d, Naotsugu."
  , goLeftForSplitMode := defaultGoLeftForSplitMode
  , splitDelimiter := defaultSplitDelimiter
  , escapeSchema := some defaultEscapeSchema
  , escapeSequencesIncludePython := false
  , escapeSequencesIncludeAss := false
  , escapeSequencesIncludeSrt := false
  , escapeSequences := userDefinedEscapeSequences
  , asAListStored := none }

/-- The object built by `EscapeText.init` on a subject string that is one
single bracketed chunk, so that its filtered segment list has no plain
entry at all. -/
def stLoneTag : EscapeTextState :=
  { string := pstr "<a>"
  , goLeftForSplitMode := defaultGoLeftForSplitMode
  , splitDelimiter := defaultSplitDelimiter
  , escapeSchema := some defaultEscapeSchema
  , escapeSequencesIncludePython := false
  , escapeSequencesIncludeAss := false
  , escapeSequencesIncludeSrt := false
  , escapeSequences := userDefinedEscapeSequences
  , asAListStored := none }

/-- The object built by `EscapeText.init` on a subject string with four
plain spans (lengths 4, 1, 2, 4) separated by three bracketed chunks. -/
def stFourParts : EscapeTextState :=
  { string := pstr "aaaa<q>b<q>cc<q>dddd"
  , goLeftForSplitMode := defaultGoLeftForSplitMode
  , splitDelimiter := defaultSplitDelimiter
  , escapeSchema := some defaultEscapeSchema
  , escapeSequencesIncludePython := false
  , escapeSequencesIncludeAss := false
  , escapeSequencesIncludeSrt := false
  , escapeSequences := userDefinedEscapeSequences
  , asAListStored := none }

/- ## Lemmas about the string primitives -/

theorem strFind_occurs {sub : PyStr} :
    ∀ {s : PyStr} {i : Nat}, strFind sub s = some i → sub <+: s.drop i := by
  intro s
  induction s with
  | nil =>
    intro i h
    rw [strFind] at h
    split at h
    · rename_i hp
      cases h
      simpa using List.isPrefixOf_iff_prefix.mp hp
    · simp at h
  | cons c t ih =>
    intro i h
    rw [strFind] at h
    split at h
    · rename_i hp
      cases h
      simpa using List.isPrefixOf_iff_prefix.mp hp
    · simp only [Option.map_eq_some'] at h
      obtain ⟨j, hj, rfl⟩ := h
      simpa using ih hj

theorem strRFind_occurs {sub : PyStr} :
    ∀ {s : PyStr} {i : Nat}, strRFind sub s = some i → sub <+: s.drop i := by
  intro s
  induction s with
  | nil =>
    intro i h
    rw [strRFind] at h
    split at h
    · rename_i he
      cases h
      simp [he]
    · cases h
  | cons c t ih =>
    intro i h
    rw [strRFind] at h
    split at h
    · rename_i j hr
      cases h
      simpa using ih hr
    · split at h
      · rename_i hp
        cases h
        simpa using List.isPrefixOf_iff_prefix.mp hp
      · cases h

/-- If `sub` occurs at `i`, the string decomposes around that occurrence. -/
theorem strFind_decomp {sub s : PyStr} {i : Nat}
    (h : strFind sub s = some i) :
    s = s.take i ++ sub ++ s.drop (i + sub.length) := by
  obtain ⟨u, hu⟩ := strFind_occurs h
  have h2 : s.drop (i + sub.length) = u := by
    have hd : s.drop (i + sub.length) = (s.drop i).drop sub.length := by
      rw [List.drop_drop]
    rw [hd, ← hu, List.drop_left]
  conv_lhs => rw [← List.take_append_drop i s]
  rw [← hu, h2, List.append_assoc]

theorem pyPartition_found {sep s : PyStr} {i : Nat} (hne : sep ≠ [])
    (h : strFind sep s = some i) :
    pyPartition sep s = .ok (s.take i, sep, s.drop (i + sep.length)) := by
  rw [pyPartition, if_neg hne, h]

theorem pyPartition_notFound {sep s : PyStr} (hne : sep ≠ [])
    (h : strFind sep s = none) : pyPartition sep s = .ok (s, [], []) := by
  rw [pyPartition, if_neg hne, h]

/-- When a one-character string is a prefix of `t.drop j`, the Python slice
`t[j:j+1]` is that string. -/
theorem slice_one_of_occurs {d t : PyStr} {j : Nat} (hd : d.length = 1)
    (h : d <+: t.drop j) : pySliceNat t j (j + 1) = d := by
  obtain ⟨c, rfl⟩ := List.length_eq_one.mp hd
  obtain ⟨u, hu⟩ := h
  simp only [pySliceNat, Nat.add_sub_cancel_left, ← hu]
  rfl

/-- For a one-character delimiter `_adjustIndex` never raises: it returns
exactly `adjustIndexVal`. -/
theorem adjustIndex_eq_val {gl : Bool} {d t : PyStr} {a : Nat}
    (hd : d.length = 1) :
    adjustIndex gl d a t = .ok (adjustIndexVal gl d a t) := by
  rw [adjustIndex, adjustIndexVal]
  by_cases h1 : pySliceNat t a (a + 1) = d
  · simp [h1]
  · rw [if_neg h1, if_neg h1]
    cases gl with
    | true =>
      simp only [if_pos rfl]
      cases hr : strRFind d (t.take a) with
      | none => simp
      | some j =>
        have hp : d <+: t.drop j := by
          have h2 := strRFind_occurs hr
          rw [List.drop_take] at h2
          exact h2.trans (List.take_prefix _ _)
        simp [slice_one_of_occurs hd hp]
    | false =>
      simp only [Bool.false_eq_true, if_false]
      cases hf : strFind d (t.drop a) with
      | none => simp
      | some j =>
        have hp : d <+: t.drop (a + j) := by
          have h2 := strFind_occurs hf
          rwa [List.drop_drop] at h2
        simp [slice_one_of_occurs hd hp]

/- ## Refinement of the splitting loop -/

/-- Value of `previousPartLength` at the start of iteration `i` of the
splitting loop: zero initially, afterwards the share of part `i - 1` only. -/
def prevShare (lens : List Nat) (origLen transLen : Nat) : Nat → Nat
  | 0 => 0
  | i + 1 => partLenShare (lens.getD i 0) origLen transLen

theorem getD_map_length :
    ∀ (parts : List PyStr) (i : Nat), i < parts.length →
      (parts.map List.length).getD i 0 = (parts.getD i []).length := by
  intro parts
  induction parts with
  | nil => intro i h; simp at h
  | cons a t ih =>
    intro i h
    cases i with
    | zero => rfl
    | succ j =>
      simp only [List.map_cons, List.getD_cons_succ]
      exact ih j (by simpa using h)

theorem prevShare_add (lens : List Nat) (origLen tl i : Nat) :
    prevShare lens origLen tl i + partLenShare (lens.getD i 0) origLen tl
      = unsnappedOffset lens origLen tl i := by
  cases i <;> simp [prevShare, unsnappedOffset]

/-- Evaluation of `remapBody` on a non-final iteration for a one-character
delimiter. -/
theorem remapBody_then {gl : Bool} {d t : PyStr} {parts : List PyStr}
    {origLen n i pl pe cpe : Nat} {acc : List PyStr} (hd : d.length = 1)
    (hlast : i + 1 ≠ n) :
    remapBody gl d t parts origLen n i (pl, pe, cpe, acc) =
      .ok (partLenShare (parts.getD i []).length origLen t.length,
        adjustIndexVal gl d
          (pl + partLenShare (parts.getD i []).length origLen t.length) t,
        adjustIndexVal gl d
          (pl + partLenShare (parts.getD i []).length origLen t.length) t,
        acc ++ [pySliceNat t pe (adjustIndexVal gl d
          (pl + partLenShare (parts.getD i []).length origLen t.length) t)]) := by
  simp only [remapBody, if_pos hlast, adjustIndex_eq_val hd, bind, Except.bind,
    pure, Except.pure]

/-- Evaluation of `remapBody` on the final iteration. -/
theorem remapBody_last {gl : Bool} {d t : PyStr} {parts : List PyStr}
    {origLen n i pl pe cpe : Nat} {acc : List PyStr} (hlast : ¬(i + 1 ≠ n)) :
    remapBody gl d t parts origLen n i (pl, pe, cpe, acc) =
      .ok (partLenShare (parts.getD i []).length origLen t.length,
        cpe, cpe, acc ++ [t.drop pe]) := by
  simp only [remapBody, if_neg hlast, pure, Except.pure]

/-- The splitting loop, started at iteration `i` in its loop-invariant
state, returns the closed-form pieces for iterations `i … n-1`. -/
theorem remapLoop_spec {gl : Bool} {d t : PyStr} {parts : List PyStr}
    {origLen n : Nat} (hd : d.length = 1) (hn : n = parts.length) :
    ∀ (fuel i cpe : Nat) (acc : List PyStr), i + fuel = n →
    ∃ a b c, remapLoop gl d t parts origLen n i fuel
        (prevShare (parts.map List.length) origLen t.length i,
         specStart gl d t (parts.map List.length) origLen i, cpe, acc)
      = .ok (a, b, c, acc ++ (List.range' i fuel).map (fun k =>
          if k + 1 ≠ n then
            pySliceNat t (specStart gl d t (parts.map List.length) origLen k)
              (specEnd gl d t (parts.map List.length) origLen k)
          else t.drop (specStart gl d t (parts.map List.length) origLen k))) := by
  intro fuel
  induction fuel with
  | zero =>
    intro i cpe acc hin
    exact ⟨prevShare (parts.map List.length) origLen t.length i,
      specStart gl d t (parts.map List.length) origLen i, cpe,
      by simp [remapLoop]⟩
  | succ f ih =>
    intro i cpe acc hin
    have hi : i < n := by omega
    have hshare : partLenShare (parts.getD i []).length origLen t.length
        = partLenShare ((parts.map List.length).getD i 0) origLen t.length := by
      rw [getD_map_length parts i (by omega)]
    by_cases hlast : i + 1 = n
    · have hf : f = 0 := by omega
      subst hf
      refine ⟨partLenShare (parts.getD i []).length origLen t.length,
        cpe, cpe, ?_⟩
      rw [remapLoop, remapBody_last (by omega)]
      simp only [bind, Except.bind, remapLoop]
      simp [List.range'_succ, hlast]
    · obtain ⟨a, b, c, hrec⟩ := ih (i + 1)
        (specEnd gl d t (parts.map List.length) origLen i)
        (acc ++ [pySliceNat t
          (specStart gl d t (parts.map List.length) origLen i)
          (specEnd gl d t (parts.map List.length) origLen i)]) (by omega)
      refine ⟨a, b, c, ?_⟩
      rw [remapLoop, remapBody_then hd hlast]
      simp only [bind, Except.bind]
      rw [hshare, prevShare_add]
      have hsplit : acc ++ (List.range' i (f + 1)).map (fun k =>
            if k + 1 ≠ n then
              pySliceNat t (specStart gl d t (parts.map List.length) origLen k)
                (specEnd gl d t (parts.map List.length) origLen k)
            else t.drop (specStart gl d t (parts.map List.length) origLen k))
          = (acc ++ [pySliceNat t
              (specStart gl d t (parts.map List.length) origLen i)
              (specEnd gl d t (parts.map List.length) origLen i)])
            ++ (List.range' (i + 1) f).map (fun k =>
            if k + 1 ≠ n then
              pySliceNat t (specStart gl d t (parts.map List.length) origLen k)
                (specEnd gl d t (parts.map List.length) origLen k)
            else t.drop (specStart gl d t (parts.map List.length) origLen k)) := by
        simp [List.range'_succ, hlast]
      rw [hsplit]
      exact hrec

/-- Full characterization of `convertTranslatedStringToList` for a
single-character split delimiter: one piece for at most one plain part,
otherwise the closed-form proportional pieces. -/
theorem convertTranslated_spec (st : EscapeTextState) (t : PyStr)
    (l : List Entry) (hget : st.get_asAList = .ok l)
    (hd : st.splitDelimiter.length = 1) :
    st.convertTranslatedStringToList t =
      .ok (if (plainParts l).length ≤ 1 then [t]
        else specPieces st.goLeftForSplitMode st.splitDelimiter t
          ((plainParts l).map List.length)
          ((plainParts l).foldl (· ++ ·) []).length (plainParts l).length) := by
  rw [EscapeTextState.convertTranslatedStringToList]
  simp only [hget, bind, Except.bind]
  by_cases hn : (plainParts l).length ≤ 1
  · rw [if_pos hn, if_pos hn]
    rfl
  · rw [if_neg hn, if_neg hn]
    obtain ⟨a, b, c, hrec⟩ := @remapLoop_spec st.goLeftForSplitMode
      st.splitDelimiter t (plainParts l)
      ((plainParts l).foldl (· ++ ·) []).length (plainParts l).length hd rfl
      (plainParts l).length 0 0 [] (by omega)
    have hrec2 : remapLoop st.goLeftForSplitMode st.splitDelimiter t
        (plainParts l) ((plainParts l).foldl (· ++ ·) []).length
        (plainParts l).length 0 (plainParts l).length (0, 0, 0, [])
        = .ok (a, b, c,
          [] ++ (List.range' 0 (plainParts l).length).map (fun k =>
            if k + 1 ≠ (plainParts l).length then
              pySliceNat t (specStart st.goLeftForSplitMode st.splitDelimiter t
                  ((plainParts l).map List.length)
                  ((plainParts l).foldl (· ++ ·) []).length k)
                (specEnd st.goLeftForSplitMode st.splitDelimiter t
                  ((plainParts l).map List.length)
                  ((plainParts l).foldl (· ++ ·) []).length k)
            else t.drop (specStart st.goLeftForSplitMode st.splitDelimiter t
              ((plainParts l).map List.length)
              ((plainParts l).foldl (· ++ ·) []).length k))) := hrec
    rw [hrec2]
    simp [specPieces]
    rfl

/- ## Lemmas about concatTexts and the selection folds -/

theorem concatTexts_append (a b : List Entry) :
    concatTexts (a ++ b) = concatTexts a ++ concatTexts b := by
  induction a with
  | nil => rfl
  | cons e rest ih => simp [concatTexts, List.foldr_cons] at ih ⊢; simp [ih]

theorem concatTexts_cons (e : Entry) (l : List Entry) :
    concatTexts (e :: l) = e.text ++ concatTexts l := rfl

/-- The running-minimum fold only ever holds a pair whose key is really
found at the recorded index. -/
theorem selFold_found {t : PyStr} :
    ∀ (schema : List (PyStr × PyStr)) (acc : Option (Nat × PyStr)) (i : Nat)
      (k : PyStr),
      (∀ j k', acc = some (j, k') → strFind k' t = some j) →
      schema.foldl (selStep t) acc = some (i, k) → strFind k t = some i := by
  intro schema
  induction schema with
  | nil =>
    intro acc i k hacc hfold
    exact hacc _ _ hfold
  | cons kv rest ih =>
    intro acc i k hacc hfold
    refine ih (selStep t acc kv) i k ?_ hfold
    intro j k' hstep
    cases hf : strFind kv.1 t with
    | none =>
      simp only [selStep, hf] at hstep
      exact hacc _ _ hstep
    | some idx =>
      match acc, hacc with
      | none, hacc =>
        simp only [selStep, hf] at hstep
        cases hstep
        exact hf
      | some c, hacc =>
        simp only [selStep, hf] at hstep
        by_cases hlt : idx < c.1
        · rw [if_pos hlt] at hstep
          cases hstep
          exact hf
        · rw [if_neg hlt] at hstep
          exact hacc _ _ hstep

theorem selectLowestKey_found {schema : List (PyStr × PyStr)} {t : PyStr}
    {i : Nat} {k : PyStr} (h : selectLowestKey schema t = some (i, k)) :
    strFind k t = some i :=
  selFold_found schema none i k (by intro j k' hc; cases hc) h

/-- Same statement for the escape-sequence selection fold. -/
theorem escSelFold_found {t : PyStr} :
    ∀ (escapes : List PyStr) (acc : Option (Nat × PyStr)) (i : Nat)
      (k : PyStr),
      (∀ j k', acc = some (j, k') → strFind k' t = some j) →
      escapes.foldl (escSelStep t) acc = some (i, k) → strFind k t = some i := by
  intro escapes
  induction escapes with
  | nil =>
    intro acc i k hacc hfold
    exact hacc _ _ hfold
  | cons item rest ih =>
    intro acc i k hacc hfold
    refine ih (escSelStep t acc item) i k ?_ hfold
    intro j k' hstep
    cases hf : strFind item t with
    | none =>
      simp only [escSelStep, hf] at hstep
      exact hacc _ _ hstep
    | some idx =>
      match acc, hacc with
      | none, hacc =>
        simp only [escSelStep, hf] at hstep
        cases hstep
        exact hf
      | some c, hacc =>
        simp only [escSelStep, hf] at hstep
        by_cases hlt : idx < c.1
        · rw [if_pos hlt] at hstep
          cases hstep
          exact hf
        · rw [if_neg hlt] at hstep
          exact hacc _ _ hstep

theorem escSelect_found {escapes : List PyStr} {t : PyStr} {i : Nat}
    {k : PyStr} (h : escSelect escapes t = some (i, k)) :
    strFind k t = some i :=
  escSelFold_found escapes none i k (by intro j k' hc; cases hc) h

/-- Once the fold holds a pair at an index no later key can beat, the pair
survives to the end (the comparison is strict). -/
theorem selFold_keeps {t : PyStr} {i : Nat} {k : PyStr} :
    ∀ (rest : List (PyStr × PyStr)),
      (∀ p ∈ rest, ∀ j, strFind p.1 t = some j → i ≤ j) →
      rest.foldl (selStep t) (some (i, k)) = some (i, k) := by
  intro rest
  induction rest with
  | nil => intro _; rfl
  | cons kv tail ih =>
    intro hmin
    have hstep : selStep t (some (i, k)) kv = some (i, k) := by
      cases hf : strFind kv.1 t with
      | none => simp [selStep, hf]
      | some idx =>
        have hle : i ≤ idx := hmin kv (by simp) idx hf
        simp [selStep, hf, if_neg (show ¬idx < i by omega)]
    rw [List.foldl_cons, hstep]
    exact ih (fun p hp j hj => hmin p (by simp [hp]) j hj)

/-- Folding from an accumulator either keeps it untouched or ends on a pair
contributed by some list element. -/
theorem selFold_over {t : PyStr} :
    ∀ (l : List (PyStr × PyStr)) (acc : Option (Nat × PyStr)),
      l.foldl (selStep t) acc = acc ∨
      ∃ j k', l.foldl (selStep t) acc = some (j, k') ∧
        strFind k' t = some j ∧ ∃ p ∈ l, p.1 = k' := by
  intro l
  induction l with
  | nil => intro acc; exact Or.inl rfl
  | cons kv rest ih =>
    intro acc
    have hstep : selStep t acc kv = acc ∨
        ∃ idx, strFind kv.1 t = some idx ∧
          selStep t acc kv = some (idx, kv.1) := by
      cases hf : strFind kv.1 t with
      | none => exact Or.inl (by simp [selStep, hf])
      | some idx =>
        match acc with
        | none => exact Or.inr ⟨idx, rfl, by simp [selStep, hf]⟩
        | some c =>
          by_cases hlt : idx < c.1
          · exact Or.inr ⟨idx, rfl, by simp [selStep, hf, hlt]⟩
          · exact Or.inl (by simp [selStep, hf, hlt])
    rw [List.foldl_cons]
    rcases hstep with hkeep | ⟨idx, hf, hnew⟩
    · rw [hkeep]
      rcases ih acc with h1 | ⟨j, k', h1, h2, p, hp, hpk⟩
      · exact Or.inl h1
      · exact Or.inr ⟨j, k', h1, h2, p, by simp [hp], hpk⟩
    · rw [hnew]
      rcases ih (some (idx, kv.1)) with h1 | ⟨j, k', h1, h2, p, hp, hpk⟩
      · exact Or.inr ⟨idx, kv.1, h1, hf, kv, by simp, rfl⟩
      · exact Or.inr ⟨j, k', h1, h2, p, by simp [hp], hpk⟩

/- ## Content preservation of the extraction loops -/

theorem strFind_nil_left (t : PyStr) : strFind [] t = some 0 := by
  rw [strFind.eq_def]
  simp [List.isPrefixOf]

theorem strFind_append_self (item u : PyStr) :
    strFind item (item ++ u) = some 0 := by
  rw [strFind.eq_def, if_pos (List.isPrefixOf_iff_prefix.mpr ⟨u, rfl⟩)]

theorem pySliceTo_ofNat (s : PyStr) (n : Nat) :
    pySliceTo s (n : Int) = s.take n := by
  simp [pySliceTo]

/-- One checked Pass-1 step returns normally and appends exactly the text it
consumes (plus, on the last iteration, the leftover tail). -/
theorem pass1Body_of_stepOk {schema : List (PyStr × PyStr)} {backup i : Nat}
    {t : PyStr} {lst : List Entry} (h : pass1StepOk schema t = true) :
    ∃ tN lstMid, pass1Body schema backup i (t, lst) =
        .ok (tN, if i + 1 = backup then lstMid ++ [Entry.plain tN] else lstMid)
      ∧ concatTexts lstMid ++ tN = concatTexts lst ++ t := by
  cases hsel : selectLowestKey schema t with
  | none => simp [pass1StepOk, hsel] at h
  | some p =>
    obtain ⟨index, key⟩ := p
    cases hfind : schema.find? (fun kv => kv.1 == key) with
    | none => simp [pass1StepOk, hsel, hfind] at h
    | some kv =>
      have hdict : dictGet schema key = .ok kv.2 := by
        rw [dictGet, hfind]
      by_cases hidx : index = 0
      · subst hidx
        simp only [pass1StepOk, hsel, hfind, ne_eq, not_true_eq_false,
          if_false, Bool.and_eq_true, beq_iff_eq,
          Option.isSome_iff_exists] at h
        obtain ⟨hlen, e, he⟩ := h
        have hkey2 : kv.2 ≠ [] := by
          intro hc; rw [hc] at hlen; simp at hlen
        have hpart : pyPartition kv.2 t
            = .ok (t.take e, kv.2, t.drop (e + kv.2.length)) :=
          pyPartition_found hkey2 he
        have hpf : pyFind kv.2 t = (e : Int) := by rw [pyFind, he]
        refine ⟨t.drop (e + 1), lst ++ [Entry.esc (t.take (e + 1))], ?_, ?_⟩
        · simp only [pass1Body, hsel, hdict, hpart, hpf, bind, Except.bind,
            pure, Except.pure, ne_eq, not_true_eq_false, if_false, hlen]
          rw [show (e : Int) + 1 = ((e + 1 : Nat) : Int) by omega,
            pySliceTo_ofNat]
        · rw [concatTexts_append, List.append_assoc]
          simp [concatTexts, Entry.text, List.take_append_drop]
      · simp only [pass1StepOk, hsel, hfind, ne_eq, hidx, not_false_eq_true,
          if_true, Bool.and_eq_true, beq_iff_eq,
          Option.isSome_iff_exists] at h
        obtain ⟨hlen, e, he⟩ := h
        have hkf : strFind key t = some index := selectLowestKey_found hsel
        have hkey : key ≠ [] := by
          intro hc
          rw [hc, strFind_nil_left] at hkf
          cases hkf
          exact hidx rfl
        have hpartk : pyPartition key t
            = .ok (t.take index, key, t.drop (index + key.length)) :=
          pyPartition_found hkey hkf
        have hkey2 : kv.2 ≠ [] := by
          intro hc; rw [hc] at hlen; simp at hlen
        have hpart : pyPartition kv.2 (key ++ t.drop (index + key.length))
            = .ok ((key ++ t.drop (index + key.length)).take e, kv.2,
                (key ++ t.drop (index + key.length)).drop (e + kv.2.length)) :=
          pyPartition_found hkey2 he
        have hpf : pyFind kv.2 (key ++ t.drop (index + key.length))
            = (e : Int) := by rw [pyFind, he]
        refine ⟨(key ++ t.drop (index + key.length)).drop (e + 1),
          lst ++ [Entry.plain (t.take index),
            Entry.esc ((key ++ t.drop (index + key.length)).take (e + 1))],
          ?_, ?_⟩
        · simp only [pass1Body, hsel, hdict, hpartk, hpart, hpf, bind,
            Except.bind, pure, Except.pure, ne_eq, hidx, not_false_eq_true,
            if_true, hlen]
          rw [show (e : Int) + 1 = ((e + 1 : Nat) : Int) by omega,
            pySliceTo_ofNat]
          simp [List.append_assoc]
        · rw [concatTexts_append, List.append_assoc]
          simp only [concatTexts, Entry.text, List.foldr_cons, List.foldr_nil,
            List.append_nil, List.append_assoc]
          rw [List.take_append_drop]
          have hdec := strFind_decomp hkf
          conv_rhs => rw [hdec]
          simp [List.append_assoc]

/-- One checked Pass-2 escape step returns normally and appends exactly the
text it consumes. -/
theorem escBody_of_stepOk {escapes : List PyStr} {backup i : Nat} {t : PyStr}
    {lst : List Entry} (h : escStepOk escapes t = true) :
    ∃ tN lstMid, escBody escapes backup i (t, lst) =
        .ok (tN, if i + 1 = backup then lstMid ++ [Entry.plain tN] else lstMid)
      ∧ concatTexts lstMid ++ tN = concatTexts lst ++ t := by
  cases hsel : escSelect escapes t with
  | none => simp [escStepOk, hsel] at h
  | some p =>
    obtain ⟨idx, item⟩ := p
    have hne : item ≠ [] := by
      simpa [escStepOk, hsel] using h
    have hf : strFind item t = some idx := escSelect_found hsel
    have hpfi : pyFind item t = (idx : Int) := by rw [pyFind, hf]
    by_cases hidx : idx = 0
    · subst hidx
      have hpart : pyPartition item t
          = .ok (t.take 0, item, t.drop (0 + item.length)) :=
        pyPartition_found hne hf
      refine ⟨t.drop (0 + item.length),
        lst ++ [Entry.esc (t.take (0 + item.length))], ?_, ?_⟩
      · simp only [escBody, hsel, hpfi, hpart, hf, bind, Except.bind, pure,
          Except.pure, Nat.cast_zero, ne_eq, not_true_eq_false, if_false]
        rw [show (0 : Int) + (item.length : Int)
            = ((0 + item.length : Nat) : Int) by omega, pySliceTo_ofNat]
      · rw [concatTexts_append, List.append_assoc]
        simp [concatTexts, Entry.text, List.take_append_drop]
    · have hpartPre : pyPartition item t
          = .ok (t.take idx, item, t.drop (idx + item.length)) :=
        pyPartition_found hne hf
      have hmid : strFind item (item ++ t.drop (idx + item.length)) = some 0 :=
        strFind_append_self _ _
      have hpfmid : pyFind item (item ++ t.drop (idx + item.length))
          = ((0 : Nat) : Int) := by rw [pyFind, hmid]
      have hpartMid : pyPartition item (item ++ t.drop (idx + item.length))
          = .ok ((item ++ t.drop (idx + item.length)).take 0, item,
              (item ++ t.drop (idx + item.length)).drop (0 + item.length)) :=
        pyPartition_found hne hmid
      refine ⟨(item ++ t.drop (idx + item.length)).drop (0 + item.length),
        lst ++ [Entry.plain (t.take idx),
          Entry.esc ((item ++ t.drop (idx + item.length)).take
            (0 + item.length))], ?_, ?_⟩
      · simp only [escBody, hsel, hpfi, hpartPre, hpartMid, hpfmid, bind,
          Except.bind, pure, Except.pure, ne_eq, Nat.cast_zero]
        rw [if_pos (show ¬((idx : Int) = 0) by
          intro hc; exact hidx (by exact_mod_cast hc))]
        rw [show (0 : Int) + (item.length : Int)
            = ((0 + item.length : Nat) : Int) by omega, pySliceTo_ofNat]
        simp [List.append_assoc]
      · rw [concatTexts_append, List.append_assoc]
        simp only [concatTexts, Entry.text, List.foldr_cons, List.foldr_nil,
          List.append_nil, List.append_assoc]
        rw [List.take_append_drop]
        have hdec := strFind_decomp hf
        conv_rhs => rw [hdec]
        simp [List.append_assoc]

/-- A fully checked Pass-1 loop (run to its planned count) returns normally
and its final list carries exactly the initial list's text followed by the
initial remainder. -/
theorem pass1Loop_of_check {schema : List (PyStr × PyStr)} {backup : Nat} :
    ∀ (fuel i : Nat) (st : PyStr × List Entry), i + fuel = backup →
      1 ≤ fuel → pass1Check schema backup i fuel st = true →
      ∃ tN lstN, pass1Loop schema backup i fuel st = .ok (tN, lstN)
        ∧ concatTexts lstN = concatTexts st.2 ++ st.1 := by
  intro fuel
  induction fuel with
  | zero =>
    intro i st _ hpos
    omega
  | succ f ih =>
    intro i st hin _ hchk
    obtain ⟨a, b⟩ := st
    simp only [pass1Check, Bool.and_eq_true] at hchk
    obtain ⟨hstep, hrest⟩ := hchk
    obtain ⟨tN, lstMid, hbody, hcontent⟩ :=
      @pass1Body_of_stepOk schema backup i a b hstep
    rw [hbody] at hrest
    cases f with
    | zero =>
      have hib : i + 1 = backup := by omega
      rw [if_pos hib] at hbody hrest
      refine ⟨tN, lstMid ++ [Entry.plain tN], ?_, ?_⟩
      · rw [pass1Loop, hbody]
        simp only [bind, Except.bind, pass1Loop]
      · rw [concatTexts_append]
        simp only [concatTexts, Entry.text, List.foldr_cons, List.foldr_nil,
          List.append_nil]
        exact hcontent
    | succ f' =>
      have hib : i + 1 ≠ backup := by omega
      rw [if_neg hib] at hbody hrest
      obtain ⟨tN2, lstN, hloop, hcc⟩ :=
        ih (i + 1) (tN, lstMid) (by omega) (by omega) hrest
      refine ⟨tN2, lstN, ?_, ?_⟩
      · rw [pass1Loop, hbody]
        simp only [bind, Except.bind]
        exact hloop
      · rw [hcc]
        exact hcontent

/-- Same statement for one entry's escape-splitting loop. -/
theorem escLoop_of_check {escapes : List PyStr} {backup : Nat} :
    ∀ (fuel i : Nat) (st : PyStr × List Entry), i + fuel = backup →
      1 ≤ fuel → escCheck escapes backup i fuel st = true →
      ∃ tN lstN, escLoop escapes backup i fuel st = .ok (tN, lstN)
        ∧ concatTexts lstN = concatTexts st.2 ++ st.1 := by
  intro fuel
  induction fuel with
  | zero =>
    intro i st _ hpos
    omega
  | succ f ih =>
    intro i st hin _ hchk
    obtain ⟨a, b⟩ := st
    simp only [escCheck, Bool.and_eq_true] at hchk
    obtain ⟨hstep, hrest⟩ := hchk
    obtain ⟨tN, lstMid, hbody, hcontent⟩ :=
      @escBody_of_stepOk escapes backup i a b hstep
    rw [hbody] at hrest
    cases f with
    | zero =>
      have hib : i + 1 = backup := by omega
      rw [if_pos hib] at hbody hrest
      refine ⟨tN, lstMid ++ [Entry.plain tN], ?_, ?_⟩
      · rw [escLoop, hbody]
        simp only [bind, Except.bind, escLoop]
      · rw [concatTexts_append]
        simp only [concatTexts, Entry.text, List.foldr_cons, List.foldr_nil,
          List.append_nil]
        exact hcontent
    | succ f' =>
      have hib : i + 1 ≠ backup := by omega
      rw [if_neg hib] at hbody hrest
      obtain ⟨tN2, lstN, hloop, hcc⟩ :=
        ih (i + 1) (tN, lstMid) (by omega) (by omega) hrest
      refine ⟨tN2, lstN, ?_, ?_⟩
      · rw [escLoop, hbody]
        simp only [bind, Except.bind]
        exact hloop
      · rw [hcc]
        exact hcontent

/-- A checked `buildMappings` run returns normally and every mapping's
replacement list concatenates back to its key. -/
theorem buildMappings_of_check {escapes : List PyStr} :
    ∀ lst, mappingsCheck escapes lst = true →
      ∃ m, buildMappings escapes lst = .ok m
        ∧ ∀ p ∈ m, concatTexts p.2 = p.1 := by
  intro lst
  induction lst with
  | nil =>
    intro _
    exact ⟨[], rfl, by simp⟩
  | cons e rest ih =>
    intro hchk
    cases e with
    | esc s =>
      simp only [mappingsCheck] at hchk
      obtain ⟨m, hm, hp⟩ := ih hchk
      exact ⟨m, by simp only [buildMappings]; exact hm, hp⟩
    | plain entry =>
      simp only [mappingsCheck, Bool.and_eq_true] at hchk
      obtain ⟨hcond, hrest⟩ := hchk
      obtain ⟨m, hm, hp⟩ := ih hrest
      by_cases hc : countEscapes escapes entry = 0
      · refine ⟨m, ?_, hp⟩
        simp only [buildMappings, hc, if_pos rfl]
        exact hm
      · rw [if_neg hc] at hcond
        obtain ⟨tN, lstN, hloop, hcc⟩ := escLoop_of_check
          (countEscapes escapes entry) 0 (entry, []) (by omega) (by omega)
          hcond
        refine ⟨(entry, lstN) :: m, ?_, ?_⟩
        · simp only [buildMappings, hc, if_neg, hloop, hm, bind, Except.bind,
          ite_false]
        · intro p hp2
          rcases List.mem_cons.mp hp2 with hhead | htail
          · subst hhead
            simpa [concatTexts] using hcc
          · exact hp p htail

/-- A successful `findIdxEntry` pins down the list's shape and the result
of `pyRemoveFirst`. -/
theorem findIdxEntry_spec {x : Entry} :
    ∀ {l : List Entry} {i : Nat}, findIdxEntry x l = some i →
      i < l.length ∧ l = l.take i ++ x :: l.drop (i + 1)
        ∧ pyRemoveFirst l x = .ok (l.take i ++ l.drop (i + 1)) := by
  intro l
  induction l with
  | nil =>
    intro i h
    simp [findIdxEntry] at h
  | cons a rest ih =>
    intro i h
    by_cases hax : a = x
    · simp only [findIdxEntry, if_pos hax] at h
      cases h
      subst hax
      refine ⟨by simp, by simp, ?_⟩
      simp [pyRemoveFirst]
    · simp only [findIdxEntry, if_neg hax, Option.map_eq_some'] at h
      obtain ⟨j, hj, rfl⟩ := h
      obtain ⟨hlt, hdecomp, hrem⟩ := ih hj
      refine ⟨by simpa using Nat.succ_lt_succ hlt, ?_, ?_⟩
      · conv_lhs => rw [show a :: rest = a :: (rest.take j ++ x :: rest.drop (j + 1)) from by rw [← hdecomp]]
        simp
      · simp only [pyRemoveFirst, if_neg hax, hrem, Except.map]
        simp

theorem lookupMapping_mem {m : List (PyStr × List Entry)} {s : PyStr}
    {repl : List Entry} (h : lookupMapping m s = some repl) :
    (s, repl) ∈ m := by
  rw [lookupMapping] at h
  simp only [Option.map_eq_some'] at h
  obtain ⟨kv, hfind, hrepl⟩ := h
  have hmem := List.mem_of_find?_eq_some hfind
  have hkey : kv.1 = s := by
    have := List.find?_some hfind
    simpa using this
  have : kv = (s, repl) := by
    rw [← hkey, ← hrepl]
  rwa [this] at hmem

/-- Inserting the reversed replacement one element at a time at a fixed
position `lc = len pre` amounts to splicing the replacement in as a block. -/
theorem pyInsertManyRev_block {α : Type} (lc : Nat) :
    ∀ (repl pre suf : List α), pre.length = lc →
      pyInsertManyRev lc repl (pre ++ suf) = pre ++ repl ++ suf := by
  intro repl
  induction repl with
  | nil =>
    intro pre suf hl
    simp [pyInsertManyRev]
  | cons r rs ih =>
    intro pre suf hl
    have hstep : pyInsertManyRev lc (r :: rs) (pre ++ suf)
        = pyInsertAt lc r (pyInsertManyRev lc rs (pre ++ suf)) := by
      simp [pyInsertManyRev, List.reverse_cons, List.foldl_append]
    rw [hstep, ih pre suf hl, pyInsertAt, ← hl]
    simp [List.append_assoc, List.take_left, List.drop_left]

/-- A checked splice run returns normally and leaves the total text of the
list unchanged. -/
theorem spliceLoop_of_check {m : List (PyStr × List Entry)}
    (hm : ∀ p ∈ m, concatTexts p.2 = p.1) :
    ∀ (iter : List Entry) (lc : Nat) (cur : List Entry),
      spliceCheck m iter (lc, cur) = true →
      ∃ final, spliceLoop m iter (lc, cur) = .ok final
        ∧ concatTexts final = concatTexts cur := by
  intro iter
  induction iter with
  | nil =>
    intro lc cur _
    exact ⟨cur, rfl, rfl⟩
  | cons e rest ih =>
    intro lc cur hchk
    cases e with
    | esc s =>
      simp only [spliceCheck] at hchk
      obtain ⟨final, h1, h2⟩ := ih (lc + 1) cur hchk
      exact ⟨final, by simp only [spliceLoop]; exact h1, h2⟩
    | plain s =>
      cases hlook : lookupMapping m s with
      | none =>
        simp only [spliceCheck, hlook] at hchk
        obtain ⟨final, h1, h2⟩ := ih (lc + 1) cur hchk
        exact ⟨final, by simp only [spliceLoop, hlook]; exact h1, h2⟩
      | some repl =>
        simp only [spliceCheck, hlook, Bool.and_eq_true, beq_iff_eq] at hchk
        obtain ⟨hfix, hrest⟩ := hchk
        obtain ⟨hlt, hdecomp, hrem⟩ := findIdxEntry_spec hfix
        simp only [hrem] at hrest
        have hins : pyInsertManyRev lc repl (cur.take lc ++ cur.drop (lc + 1))
            = cur.take lc ++ repl ++ cur.drop (lc + 1) :=
          pyInsertManyRev_block lc repl _ _
            (by rw [List.length_take]; omega)
        rw [hins] at hrest
        obtain ⟨final, h1, h2⟩ := ih _ _ hrest
        refine ⟨final, ?_, ?_⟩
        · simp only [spliceLoop, hlook, hrem, bind, Except.bind, hins]
          exact h1
        · rw [h2]
          have hrepl : concatTexts repl = s := hm _ (lookupMapping_mem hlook)
          conv_rhs => rw [hdecomp]
          simp [concatTexts_append, concatTexts_cons, hrepl, Entry.text]

/-- C1 (amended): concatenating, in order, the text of all entries returned
by `convertStringToList` (before the empty-string filter) reconstructs the
input exactly, for every input string, schema table and escape-sequence set
whose run is well formed in the sense of `segmentationWellFormed` — every
Pass-1 extraction step finds its (single-character) closing delimiter in the
remainder, every Pass-2 escape split completes, and the in-place splice
replaces each mapped entry at its own position.  The unrestricted claim is
false: see the counterexample, where an opening delimiter whose closer has
already been consumed makes the code silently swallow the rest of the
string. -/
theorem convertStringToList_roundTrip_of_wellFormed
    (schema : List (PyStr × PyStr)) (escapes : List PyStr) (s : PyStr)
    (h : segmentationWellFormed schema escapes s = true) :
    ∃ l, convertStringToList schema escapes s = .ok l ∧ concatTexts l = s := by
  simp only [segmentationWellFormed, Bool.and_eq_true] at h
  obtain ⟨hp1, hrest⟩ := h
  obtain ⟨tN, lstN, hl, hcc⟩ : ∃ tN lstN,
      pass1Loop schema (countSchemas schema s) 0 (countSchemas schema s)
        (s, if countSchemas schema s = 0 then [Entry.plain s] else [])
        = .ok (tN, lstN) ∧ concatTexts lstN = s := by
    by_cases hc : countSchemas schema s = 0
    · rw [hc]
      exact ⟨s, [Entry.plain s], by simp [pass1Loop],
        by simp [concatTexts, Entry.text]⟩
    · rw [if_neg hc]
      rw [if_neg hc] at hp1
      obtain ⟨tN, lstN, hl, hcc2⟩ := pass1Loop_of_check
        (countSchemas schema s) 0 (s, []) (by omega) (by omega) hp1
      exact ⟨tN, lstN, hl, by simpa [concatTexts] using hcc2⟩
  rw [hl] at hrest
  simp only at hrest
  simp only [convertStringToList, hl, bind, Except.bind]
  by_cases he : escapes.length = 0
  · rw [if_pos he] at hrest ⊢
    exact ⟨lstN, rfl, hcc⟩
  · rw [if_neg he] at hrest ⊢
    simp only [Bool.and_eq_true] at hrest
    obtain ⟨hmc, hq2⟩ := hrest
    obtain ⟨m, hbm, hmp⟩ := buildMappings_of_check lstN hmc
    rw [hbm] at hq2
    simp only at hq2
    simp only [hbm, bind, Except.bind]
    by_cases hml : m.length > 0
    · rw [if_pos hml] at hq2 ⊢
      obtain ⟨final, hsp, hcf⟩ := spliceLoop_of_check hmp lstN 0 lstN hq2
      exact ⟨final, hsp, hcf.trans hcc⟩
    · rw [if_neg hml] at hq2 ⊢
      exact ⟨lstN, rfl, hcc⟩

/- ## Claim theorems -/

/-- C1 counterexample: on the input where the second opening delimiter has
no remaining closing delimiter (the global count still counts it because a
closer appears earlier in the string), `convertStringToList` returns
normally but swallows the tail `<b`: the concatenation of the returned
entries' text is `<a>`, not the input. -/
theorem convertStringToList_roundTrip_counterexample :
    convertStringToList [(pstr "<", pstr ">")] [] (pstr "<a><b")
      = .ok [Entry.esc (pstr "<a>"), Entry.esc [], Entry.plain []]
    ∧ concatTexts [Entry.esc (pstr "<a>"), Entry.esc [], Entry.plain []]
      ≠ pstr "<a><b" :=
  ⟨of_decide_eq_true rfl, of_decide_eq_true rfl⟩

/-- C1 witness: a well-formed run (one bracket pair and one literal escape
sequence) for which the round-trip theorem applies. -/
theorem convertStringToList_roundTrip_witness :
    segmentationWellFormed [(pstr "<", pstr ">")] [pstr "\\N"]
      (pstr "a\\Nb<c>d") = true
    ∧ ∃ l, convertStringToList [(pstr "<", pstr ">")] [pstr "\\N"]
        (pstr "a\\Nb<c>d") = .ok l ∧ concatTexts l = pstr "a\\Nb<c>d" :=
  ⟨of_decide_eq_true rfl,
    convertStringToList_roundTrip_of_wellFormed [(pstr "<", pstr ">")]
      [pstr "\\N"] (pstr "a\\Nb<c>d") (of_decide_eq_true rfl)⟩

/-- Helper for claim C2: a schema pair only contributes to the occurrence
count when its opening and closing delimiters both occur in the string. -/
theorem countSchemas_eq_zero {schema : List (PyStr × PyStr)} {s : PyStr}
    (h : ∀ kv ∈ schema, strFind kv.1 s = none ∨ strFind kv.2 s = none) :
    countSchemas schema s = 0 := by
  rw [countSchemas]
  induction schema with
  | nil => rfl
  | cons kv rest ih =>
    rw [List.foldl_cons]
    have : (if (strFind kv.1 s).isSome && (strFind kv.2 s).isSome
        then 0 + strCount kv.1 s else 0) = 0 := by
      rcases h kv (by simp) with h1 | h1 <;> simp [h1]
    rw [this]
    exact ih (fun p hp => h p (by simp [hp]))

/-- C2 counterexample: on `'<unclosed tag text'` with schema `<` mapped to
`>` the code does not raise any fault: it returns the entire input as one
plain segment (the pair is not counted because the closer occurs nowhere). -/
theorem convertStringToList_unclosed_counterexample :
    convertStringToList [(pstr "<", pstr ">")] [] (pstr "<unclosed tag text")
      = .ok [Entry.plain (pstr "<unclosed tag text")] :=
  of_decide_eq_true rfl

/-- C2 (amended): when no schema pair has both its opening and its closing
delimiter present in the input — in particular for an opening delimiter
whose closer occurs nowhere — segmentation (with no literal escape
sequences) raises nothing and returns the whole input, untruncated, as a
single plain segment. -/
theorem convertStringToList_unclosed_returns_whole
    (schema : List (PyStr × PyStr)) (s : PyStr)
    (h : ∀ kv ∈ schema, strFind kv.1 s = none ∨ strFind kv.2 s = none) :
    convertStringToList schema [] s = .ok [Entry.plain s] := by
  simp only [convertStringToList, countSchemas_eq_zero h, if_pos rfl,
    pass1Loop, bind, Except.bind, List.length_nil]
  rfl

/-- C2 witness: the amended theorem applied to the unclosed-tag input. -/
theorem convertStringToList_unclosed_witness :
    (∀ kv ∈ [(pstr "<", pstr ">")],
      strFind kv.1 (pstr "<unclosed tag text") = none
      ∨ strFind kv.2 (pstr "<unclosed tag text") = none)
    ∧ convertStringToList [(pstr "<", pstr ">")] [] (pstr "<unclosed tag text")
      = .ok [Entry.plain (pstr "<unclosed tag text")] :=
  ⟨of_decide_eq_true rfl,
    convertStringToList_unclosed_returns_whole [(pstr "<", pstr ">")]
      (pstr "<unclosed tag text") (of_decide_eq_true rfl)⟩

/-- C5 counterexample: with the table `< → >` then `<< → >>` on `'<<a>>'`,
both keys occur at the lowest index 0, the key evaluated last in table
iteration order is `<<`, yet the selection loop settles on `<` — the first
one evaluated, because the running minimum is only replaced on a strictly
lower index. -/
theorem selectLowestKey_tie_counterexample :
    strFind (pstr "<") (pstr "<<a>>") = some 0
    ∧ strFind (pstr "<<") (pstr "<<a>>") = some 0
    ∧ selectLowestKey [(pstr "<", pstr ">"), (pstr "<<", pstr ">>")]
        (pstr "<<a>>") = some (0, pstr "<")
    ∧ pstr "<" ≠ pstr "<<" :=
  ⟨of_decide_eq_true rfl, of_decide_eq_true rfl, of_decide_eq_true rfl,
    of_decide_eq_true rfl⟩

/-- C5 (amended): when several schema keys are found and at least two tie at
the same lowest index, the key evaluated **first** in table iteration order
wins: for any table split as `pre ++ (k, v) :: post` where `k` occurs at the
minimal index `i` and no key of `pre` occurs at `i`, the selection loop
returns `(i, k)`. -/
theorem selectLowestKey_first_evaluated_wins
    (pre post : List (PyStr × PyStr)) (k v t : PyStr) (i : Nat)
    (hk : strFind k t = some i)
    (hmin : ∀ p ∈ pre ++ (k, v) :: post, ∀ j, strFind p.1 t = some j → i ≤ j)
    (hpre : ∀ p ∈ pre, strFind p.1 t ≠ some i) :
    selectLowestKey (pre ++ (k, v) :: post) t = some (i, k) := by
  rw [selectLowestKey, List.foldl_append, List.foldl_cons]
  rcases selFold_over pre none with hkeep | ⟨j, kP, hfold, hfk, p, hp, hpk⟩
  · rw [hkeep]
    have hstep : selStep t none (k, v) = some (i, k) := by
      simp [selStep, hk]
    rw [hstep]
    exact selFold_keeps post (fun p hp j hj => hmin p (by simp [hp]) j hj)
  · rw [hfold]
    have hjge : i ≤ j := hmin p (by simp [hp]) j (by rw [hpk]; exact hfk)
    have hjne : j ≠ i := by
      intro hc
      exact hpre p hp (by rw [hpk, hfk, hc])
    have hstep : selStep t (some (j, kP)) (k, v) = some (i, k) := by
      simp [selStep, hk, if_pos (show i < j by omega)]
    rw [hstep]
    exact selFold_keeps post (fun p hp j hj => hmin p (by simp [hp]) j hj)

/-- C5 witness: the first-wins rule applied to the concrete tied table. -/
theorem selectLowestKey_first_evaluated_wins_witness :
    strFind (pstr "<") (pstr "<<a>>") = some 0
    ∧ selectLowestKey ([] ++ (pstr "<", pstr ">") :: [(pstr "<<", pstr ">>")])
        (pstr "<<a>>") = some (0, pstr "<") :=
  ⟨of_decide_eq_true rfl,
    selectLowestKey_first_evaluated_wins [] [(pstr "<<", pstr ">>")]
      (pstr "<") (pstr ">") (pstr "<<a>>") 0 (of_decide_eq_true rfl)
      (fun p _ j _ => Nat.zero_le j) (fun p hp => by simp at hp)⟩

/-- C8: a list/tuple schema configuration that maps the same opening
delimiter to two different closing delimiters is rejected when the object
is constructed — `EscapeText.__init__` raises before any state with such a
table exists, so segmentation is never entered with it.  (The rejection is
the constructor's `AttributeError`: the item-assignment loop reads the
never-assigned `escapeSchema` attribute; a dict-form argument cannot even
express duplicate keys.) -/
theorem init_duplicate_schema_rejected (s : PyStr)
    (entries : List (PyStr × PyStr)) (esa : EscSeqArg) (k v1 v2 : PyStr)
    (h1 : (k, v1) ∈ entries) (h2 : (k, v2) ∈ entries) (hne : v1 ≠ v2) :
    EscapeText.init s (.fromListOrTuple entries) esa
      = .error PyErr.attributeError := by
  cases entries with
  | nil => simp at h1
  | cons e rest => rfl

/-- C8 witness: the contradictory table `[(<,>), (<,x)]` is rejected. -/
theorem init_duplicate_schema_rejected_witness :
    (pstr "<", pstr ">") ∈ [(pstr "<", pstr ">"), (pstr "<", pstr "x")]
    ∧ (pstr "<", pstr "x") ∈ [(pstr "<", pstr ">"), (pstr "<", pstr "x")]
    ∧ pstr ">" ≠ pstr "x"
    ∧ EscapeText.init (pstr "a")
        (.fromListOrTuple [(pstr "<", pstr ">"), (pstr "<", pstr "x")])
        .pyNone = .error PyErr.attributeError :=
  ⟨of_decide_eq_true rfl, of_decide_eq_true rfl, of_decide_eq_true rfl,
    init_duplicate_schema_rejected (pstr "a")
      [(pstr "<", pstr ">"), (pstr "<", pstr "x")] .pyNone (pstr "<")
      (pstr ">") (pstr "x") (of_decide_eq_true rfl) (of_decide_eq_true rfl)
      (of_decide_eq_true rfl)⟩

/-- C9: for every non-empty list or tuple of delimiter pairs passed as the
`escapeSchema` constructor argument, `EscapeText.__init__` raises
`AttributeError` — the entry assert passes (entries are pairs) and the item
assignment reads `self.escapeSchema` before that attribute has ever been
assigned — so no non-empty list- or tuple-form schema configuration can be
constructed. -/
theorem init_nonempty_list_schema_attributeError (s : PyStr)
    (entries : List (PyStr × PyStr)) (esa : EscSeqArg)
    (hne : entries ≠ []) :
    EscapeText.init s (.fromListOrTuple entries) esa
      = .error PyErr.attributeError := by
  cases entries with
  | nil => exact absurd rfl hne
  | cons e rest => rfl

/-- C9 witness: a one-pair list already fails to construct. -/
theorem init_nonempty_list_schema_attributeError_witness :
    ([(pstr "<", pstr ">")] : List (PyStr × PyStr)) ≠ []
    ∧ EscapeText.init (pstr "a")
        (.fromListOrTuple [(pstr "<", pstr ">")]) .pyNone
      = .error PyErr.attributeError :=
  ⟨of_decide_eq_true rfl,
    init_nonempty_list_schema_attributeError (pstr "a")
      [(pstr "<", pstr ">")] .pyNone (of_decide_eq_true rfl)⟩

/-- C10: assigning to the `asAList` property only stores the value in the
otherwise-unused `_asAList` attribute: a subsequent read still returns the
freshly recomputed, empty-string-filtered segmentation of the current
subject string, and no other attribute of the object changes. -/
theorem set_asAList_frame (st : EscapeTextState) (v : List Entry) :
    (st.set_asAList v).get_asAList = st.get_asAList
    ∧ (st.set_asAList v).asAListStored = some v
    ∧ (st.set_asAList v).string = st.string
    ∧ (st.set_asAList v).goLeftForSplitMode = st.goLeftForSplitMode
    ∧ (st.set_asAList v).splitDelimiter = st.splitDelimiter
    ∧ (st.set_asAList v).escapeSchema = st.escapeSchema
    ∧ (st.set_asAList v).escapeSequences = st.escapeSequences
    ∧ (st.set_asAList v).escapeSequencesIncludePython
        = st.escapeSequencesIncludePython
    ∧ (st.set_asAList v).escapeSequencesIncludeAss
        = st.escapeSequencesIncludeAss
    ∧ (st.set_asAList v).escapeSequencesIncludeSrt
        = st.escapeSequencesIncludeSrt :=
  ⟨rfl, rfl, rfl, rfl, rfl, rfl, rfl, rfl, rfl, rfl⟩

/-- C3 counterexample: a subject string that is one single bracketed chunk
has zero plain segments after filtering, yet `convertTranslatedStringToList`
returns one piece, not zero — the `n <= 1` branch returns the whole
translated string as a single piece. -/
theorem convertTranslated_count_counterexample :
    EscapeText.init (pstr "<a>") .pyNone .pyNone = .ok stLoneTag
    ∧ stLoneTag.get_asAList = .ok [Entry.esc (pstr "<a>")]
    ∧ plainParts [Entry.esc (pstr "<a>")] = []
    ∧ stLoneTag.convertTranslatedStringToList (pstr "xy") = .ok [pstr "xy"]
    ∧ ([pstr "xy"] : List PyStr).length
        ≠ (plainParts [Entry.esc (pstr "<a>")]).length :=
  ⟨of_decide_eq_true rfl, of_decide_eq_true rfl, of_decide_eq_true rfl,
    of_decide_eq_true rfl, of_decide_eq_true rfl⟩

/-- C3 (amended): for every object whose segmentation succeeds and whose
split delimiter is a single character (the default is a space),
`convertTranslatedStringToList` returns exactly `max n 1` pieces for `n`
plain segments: `n` pieces whenever `n ≥ 1`, regardless of where or whether
the split delimiter occurs in the translated string, but one piece — not
zero — when the segment list has no plain segment at all. -/
theorem convertTranslated_piece_count (st : EscapeTextState) (t : PyStr)
    (l : List Entry) (hget : st.get_asAList = .ok l)
    (hd : st.splitDelimiter.length = 1) :
    ∃ pieces, st.convertTranslatedStringToList t = .ok pieces
      ∧ pieces.length = max (plainParts l).length 1 := by
  refine ⟨_, convertTranslated_spec st t l hget hd, ?_⟩
  by_cases hn : (plainParts l).length ≤ 1
  · rw [if_pos hn]
    simp only [List.length_cons, List.length_nil]
    omega
  · rw [if_neg hn]
    simp only [specPieces, List.length_map, List.length_range']
    omega

/-- C3 witness: the count rule applied to the four-part object on a
translated string that contains no delimiter at all. -/
theorem convertTranslated_piece_count_witness :
    stFourParts.get_asAList = .ok
      [Entry.plain (pstr "aaaa"), Entry.esc (pstr "<q>"),
        Entry.plain (pstr "b"), Entry.esc (pstr "<q>"),
        Entry.plain (pstr "cc"), Entry.esc (pstr "<q>"),
        Entry.plain (pstr "dddd")]
    ∧ stFourParts.splitDelimiter.length = 1
    ∧ ∃ pieces, stFourParts.convertTranslatedStringToList
        (pstr "ABCDEFGHIJK") = .ok pieces
      ∧ pieces.length = max (plainParts
          [Entry.plain (pstr "aaaa"), Entry.esc (pstr "<q>"),
            Entry.plain (pstr "b"), Entry.esc (pstr "<q>"),
            Entry.plain (pstr "cc"), Entry.esc (pstr "<q>"),
            Entry.plain (pstr "dddd")]).length 1 :=
  ⟨of_decide_eq_true rfl, of_decide_eq_true rfl,
    convertTranslated_piece_count stFourParts (pstr "ABCDEFGHIJK")
      [Entry.plain (pstr "aaaa"), Entry.esc (pstr "<q>"),
        Entry.plain (pstr "b"), Entry.esc (pstr "<q>"),
        Entry.plain (pstr "cc"), Entry.esc (pstr "<q>"),
        Entry.plain (pstr "dddd")]
      (of_decide_eq_true rfl) (of_decide_eq_true rfl)⟩

/-- C4: for an object whose segmentation succeeds and whose split delimiter
is a single character (the default), remapping a translated string never
raises: `convertTranslatedStringToList` returns normally on every input,
and whenever the delimiter is not under the approximate offset and cannot
be found in the required search direction, `_adjustIndex` returns the
unsnapped approximate offset itself — its internal assertion is never
reached on such inputs. -/
theorem convertTranslated_no_raise (st : EscapeTextState) (t : PyStr)
    (approx : Nat) (l : List Entry) (ht : t ≠ [])
    (hd : st.splitDelimiter.length = 1) (hget : st.get_asAList = .ok l)
    (hm1 : pySliceNat t approx (approx + 1) ≠ st.splitDelimiter)
    (hleft : st.goLeftForSplitMode = true →
      strRFind st.splitDelimiter (t.take approx) = none)
    (hright : st.goLeftForSplitMode = false →
      strFind st.splitDelimiter (t.drop approx) = none) :
    (∃ pieces, st.convertTranslatedStringToList t = .ok pieces)
    ∧ adjustIndex st.goLeftForSplitMode st.splitDelimiter approx t
        = .ok approx := by
  refine ⟨⟨_, convertTranslated_spec st t l hget hd⟩, ?_⟩
  cases hgl : st.goLeftForSplitMode with
  | true => simp [adjustIndex, hm1, hgl, hleft hgl]
  | false => simp [adjustIndex, hm1, hgl, hright hgl]

/-- C4 witness: the four-part object, a delimiter-free translated string
and the approximate offset 4, where the rightward search fails and the
unsnapped offset is used. -/
theorem convertTranslated_no_raise_witness :
    pstr "ABCDEFGHIJK" ≠ []
    ∧ stFourParts.splitDelimiter.length = 1
    ∧ pySliceNat (pstr "ABCDEFGHIJK") 4 5 ≠ stFourParts.splitDelimiter
    ∧ strFind stFourParts.splitDelimiter ((pstr "ABCDEFGHIJK").drop 4) = none
    ∧ (∃ pieces, stFourParts.convertTranslatedStringToList
        (pstr "ABCDEFGHIJK") = .ok pieces)
    ∧ adjustIndex stFourParts.goLeftForSplitMode stFourParts.splitDelimiter 4
        (pstr "ABCDEFGHIJK") = .ok 4 := by
  refine ⟨of_decide_eq_true rfl, of_decide_eq_true rfl, of_decide_eq_true rfl,
    of_decide_eq_true rfl, ?_, ?_⟩
  · exact (convertTranslated_no_raise stFourParts (pstr "ABCDEFGHIJK") 4
      [Entry.plain (pstr "aaaa"), Entry.esc (pstr "<q>"),
        Entry.plain (pstr "b"), Entry.esc (pstr "<q>"),
        Entry.plain (pstr "cc"), Entry.esc (pstr "<q>"),
        Entry.plain (pstr "dddd")]
      (of_decide_eq_true rfl) (of_decide_eq_true rfl) (of_decide_eq_true rfl)
      (of_decide_eq_true rfl) (of_decide_eq_true rfl)
      (of_decide_eq_true rfl)).1
  · exact (convertTranslated_no_raise stFourParts (pstr "ABCDEFGHIJK") 4
      [Entry.plain (pstr "aaaa"), Entry.esc (pstr "<q>"),
        Entry.plain (pstr "b"), Entry.esc (pstr "<q>"),
        Entry.plain (pstr "cc"), Entry.esc (pstr "<q>"),
        Entry.plain (pstr "dddd")]
      (of_decide_eq_true rfl) (of_decide_eq_true rfl) (of_decide_eq_true rfl)
      (of_decide_eq_true rfl) (of_decide_eq_true rfl)
      (of_decide_eq_true rfl)).2

/-- C6 counterexample: on four plain spans of lengths 4, 1, 2, 4 (original
length 11) remapped onto an 11-character translated string with no
delimiter, the claim's accumulated cursor would place the third boundary at
4 + 1 + 2 = 7 and yield the pieces `ABCD / E / FG / HIJK`; the code instead
hands `_adjustIndex` `previousPartLength + share`, i.e. 1 + 2 = 3 for the
third boundary, and produces `ABCD / E / (empty) / DEFGHIJK`. -/
theorem convertTranslated_cursor_counterexample :
    EscapeText.init (pstr "aaaa<q>b<q>cc<q>dddd") .pyNone .pyNone
      = .ok stFourParts
    ∧ stFourParts.convertTranslatedStringToList (pstr "ABCDEFGHIJK")
      = .ok [pstr "ABCD", pstr "E", pstr "", pstr "DEFGHIJK"]
    ∧ claimCursorOffset [4, 1, 2, 4] 11 11 2 = 7
    ∧ unsnappedOffset [4, 1, 2, 4] 11 11 2 = 3
    ∧ claimCursorPieces false (pstr " ") (pstr "ABCDEFGHIJK") [4, 1, 2, 4] 11 4
      = [pstr "ABCD", pstr "E", pstr "FG", pstr "HIJK"]
    ∧ [pstr "ABCD", pstr "E", pstr "", pstr "DEFGHIJK"]
      ≠ [pstr "ABCD", pstr "E", pstr "FG", pstr "HIJK"] :=
  ⟨of_decide_eq_true rfl, of_decide_eq_true rfl, of_decide_eq_true rfl,
    of_decide_eq_true rfl, of_decide_eq_true rfl, of_decide_eq_true rfl⟩

/-- C6 (amended): in Step B, for a single-character delimiter and `n ≥ 2`
plain segments, the pieces are exactly the closed-form `specPieces`, whose
unsnapped target offset for segment `i` is `share(i-1) + share(i)` — the
rounded proportional share of the immediately preceding segment alone
(`previousPartLength`) plus that of segment `i` — not a cursor accumulated
over all of segments `0..i`; each share is the real-valued proportional
length `len_i / origLen * transLen` rounded on its fractional part
(half-to-even), and each piece is sliced between consecutive snapped
boundaries. -/
theorem convertTranslated_offset_characterization (st : EscapeTextState)
    (t : PyStr) (l : List Entry) (hget : st.get_asAList = .ok l)
    (hd : st.splitDelimiter.length = 1)
    (hn : 2 ≤ (plainParts l).length) :
    st.convertTranslatedStringToList t
      = .ok (specPieces st.goLeftForSplitMode st.splitDelimiter t
          ((plainParts l).map List.length)
          ((plainParts l).foldl (· ++ ·) []).length
          (plainParts l).length) := by
  rw [convertTranslated_spec st t l hget hd, if_neg (by omega)]

/-- C6 witness: the closed form applied to the four-part object. -/
theorem convertTranslated_offset_characterization_witness :
    stFourParts.get_asAList = .ok
      [Entry.plain (pstr "aaaa"), Entry.esc (pstr "<q>"),
        Entry.plain (pstr "b"), Entry.esc (pstr "<q>"),
        Entry.plain (pstr "cc"), Entry.esc (pstr "<q>"),
        Entry.plain (pstr "dddd")]
    ∧ stFourParts.splitDelimiter.length = 1
    ∧ 2 ≤ (plainParts
        [Entry.plain (pstr "aaaa"), Entry.esc (pstr "<q>"),
          Entry.plain (pstr "b"), Entry.esc (pstr "<q>"),
          Entry.plain (pstr "cc"), Entry.esc (pstr "<q>"),
          Entry.plain (pstr "dddd")]).length
    ∧ stFourParts.convertTranslatedStringToList (pstr "ABCDEFGHIJK")
      = .ok (specPieces stFourParts.goLeftForSplitMode
          stFourParts.splitDelimiter (pstr "ABCDEFGHIJK")
          ((plainParts
            [Entry.plain (pstr "aaaa"), Entry.esc (pstr "<q>"),
              Entry.plain (pstr "b"), Entry.esc (pstr "<q>"),
              Entry.plain (pstr "cc"), Entry.esc (pstr "<q>"),
              Entry.plain (pstr "dddd")]).map List.length)
          ((plainParts
            [Entry.plain (pstr "aaaa"), Entry.esc (pstr "<q>"),
              Entry.plain (pstr "b"), Entry.esc (pstr "<q>"),
              Entry.plain (pstr "cc"), Entry.esc (pstr "<q>"),
              Entry.plain (pstr "dddd")]).foldl (· ++ ·) []).length
          (plainParts
            [Entry.plain (pstr "aaaa"), Entry.esc (pstr "<q>"),
              Entry.plain (pstr "b"), Entry.esc (pstr "<q>"),
              Entry.plain (pstr "cc"), Entry.esc (pstr "<q>"),
              Entry.plain (pstr "dddd")]).length) :=
  ⟨of_decide_eq_true rfl, of_decide_eq_true rfl, of_decide_eq_true rfl,
    convertTranslated_offset_characterization stFourParts
      (pstr "ABCDEFGHIJK")
      [Entry.plain (pstr "aaaa"), Entry.esc (pstr "<q>"),
        Entry.plain (pstr "b"), Entry.esc (pstr "<q>"),
        Entry.plain (pstr "cc"), Entry.esc (pstr "<q>"),
        Entry.plain (pstr "dddd")]
      (of_decide_eq_true rfl) (of_decide_eq_true rfl)
      (of_decide_eq_true rfl)⟩

/-- C7: on the source line whose three plain spans are
`but welcome back to  / Elder Tale / , Naotsugu.`, remapping the Spanish
translated string yields exactly three pieces whose concatenation is the
translated string, and the final reinsertion places the first tag
immediately before the middle piece and the second tag immediately after
it. -/
theorem elderTale_scenario :
    EscapeText.init
      (pstr "but welcome back to \x7b\\i1\x7dElder Tale\x7b\\i0\x7d, Naotsugu.")
      .pyNone .pyNone = .ok stElderTale
    ∧ stElderTale.convertTranslatedStringToList
        (pstr "pero bienvenido de nuevo a Elder Tale, Naotsugu.")
      = .ok [pstr "pero bienvenido de nuevo", pstr " a Elder Tale,",
          pstr " Naotsugu."]
    ∧ pstr "pero bienvenido de nuevo" ++ pstr " a Elder Tale,"
        ++ pstr " Naotsugu."
      = pstr "pero bienvenido de nuevo a Elder Tale, Naotsugu."
    ∧ stElderTale.getTranslatedStringWithEscapesInserted
        (pstr "pero bienvenido de nuevo a Elder Tale, Naotsugu.")
      = .ok (pstr "pero bienvenido de nuevo" ++ pstr "\x7b\\i1\x7d"
          ++ pstr " a Elder Tale," ++ pstr "\x7b\\i0\x7d"
          ++ pstr " Naotsugu.") :=
  ⟨of_decide_eq_true rfl, of_decide_eq_true rfl, of_decide_eq_true rfl,
    of_decide_eq_true rfl⟩
